import Mathlib

/-!
Verification of `mh_amcl` (`src/mh_amcl/ParticlesDistribution.cpp`), a
particle-filter localization core.  The C++ operates on `double`; the
embedding uses exact rationals `ℚ` for all numeric state, and models the
math-library functions the code calls (`exp`, `sqrt`, `sin`, `cos`,
`asin`, `atan2` and the constant `pi` from `<cmath>` / tf2) as an
abstract `MathModel` parameter, since those are external collaborators
of the translation unit.  Random sampling (`std::normal_distribution`
over `std::mt19937`) is modelled by an explicit stream `g : ℕ → ℚ` of
standard-normal draws; a sample of `N(0, σ)` is `σ * g k`, and each call
site consumes draws in program order.
-/

set_option maxHeartbeats 1000000

namespace MhAmcl

/-- Abstract model of the floating-point math library used by the C++
(`std::exp`, `std::sqrt`, trigonometry used by tf2, `atan2`, `asin`). -/
structure MathModel where
  exp : ℚ → ℚ
  sqrt : ℚ → ℚ
  sin : ℚ → ℚ
  cos : ℚ → ℚ
  asin : ℚ → ℚ
  atan2 : ℚ → ℚ → ℚ
  pi : ℚ

/-- tf2::Vector3 (the `w` lane of the SIMD struct is irrelevant). -/
structure Vec3 where
  x : ℚ
  y : ℚ
  z : ℚ
deriving DecidableEq

/-- Componentwise sum, `tf2::Vector3::operator+`. -/
def Vec3.add (a b : Vec3) : Vec3 := ⟨a.x + b.x, a.y + b.y, a.z + b.z⟩

/-- Scaling, `tf2::Vector3::operator*(tf2Scalar)`. -/
def Vec3.smul (v : Vec3) (s : ℚ) : Vec3 := ⟨v.x * s, v.y * s, v.z * s⟩

/-- Componentwise division by a scalar, `tf2::Vector3::operator/`. -/
def Vec3.sdiv (v : Vec3) (s : ℚ) : Vec3 := ⟨v.x / s, v.y / s, v.z / s⟩

/-- `tf2::Vector3::length2()`: squared Euclidean norm. -/
def Vec3.length2 (v : Vec3) : ℚ := v.x * v.x + v.y * v.y + v.z * v.z

/-- tf2::Matrix3x3, row-major entries `m_el[row][col]`. -/
structure Mat3 where
  m00 : ℚ
  m01 : ℚ
  m02 : ℚ
  m10 : ℚ
  m11 : ℚ
  m12 : ℚ
  m20 : ℚ
  m21 : ℚ
  m22 : ℚ
deriving DecidableEq

/-- The identity rotation matrix. -/
def Mat3.id : Mat3 := ⟨1, 0, 0, 0, 1, 0, 0, 0, 1⟩

/-- Matrix-vector product, `tf2::Matrix3x3::operator*(Vector3)`. -/
def Mat3.mulVec (m : Mat3) (v : Vec3) : Vec3 :=
  ⟨m.m00 * v.x + m.m01 * v.y + m.m02 * v.z,
   m.m10 * v.x + m.m11 * v.y + m.m12 * v.z,
   m.m20 * v.x + m.m21 * v.y + m.m22 * v.z⟩

/-- Matrix product, `tf2::Matrix3x3::operator*=`. -/
def Mat3.mulMat (a b : Mat3) : Mat3 :=
  ⟨a.m00 * b.m00 + a.m01 * b.m10 + a.m02 * b.m20,
   a.m00 * b.m01 + a.m01 * b.m11 + a.m02 * b.m21,
   a.m00 * b.m02 + a.m01 * b.m12 + a.m02 * b.m22,
   a.m10 * b.m00 + a.m11 * b.m10 + a.m12 * b.m20,
   a.m10 * b.m01 + a.m11 * b.m11 + a.m12 * b.m21,
   a.m10 * b.m02 + a.m11 * b.m12 + a.m12 * b.m22,
   a.m20 * b.m00 + a.m21 * b.m10 + a.m22 * b.m20,
   a.m20 * b.m01 + a.m21 * b.m11 + a.m22 * b.m21,
   a.m20 * b.m02 + a.m21 * b.m12 + a.m22 * b.m22⟩

/-- tf2::Quaternion, stored `(x, y, z, w)`. -/
structure Quat where
  x : ℚ
  y : ℚ
  z : ℚ
  w : ℚ
deriving DecidableEq

/-- `tf2::Quaternion::setRPY(roll, pitch, yaw)`. -/
def Quat.setRPY (M : MathModel) (roll pitch yaw : ℚ) : Quat :=
  let halfYaw := yaw * 0.5
  let halfPitch := pitch * 0.5
  let halfRoll := roll * 0.5
  let cosYaw := M.cos halfYaw
  let sinYaw := M.sin halfYaw
  let cosPitch := M.cos halfPitch
  let sinPitch := M.sin halfPitch
  let cosRoll := M.cos halfRoll
  let sinRoll := M.sin halfRoll
  ⟨sinRoll * cosPitch * cosYaw - cosRoll * sinPitch * sinYaw,
   cosRoll * sinPitch * cosYaw + sinRoll * cosPitch * sinYaw,
   cosRoll * cosPitch * sinYaw - sinRoll * sinPitch * cosYaw,
   cosRoll * cosPitch * cosYaw + sinRoll * sinPitch * sinYaw⟩

/-- `tf2::Matrix3x3::setRotation(q)` (also the `Matrix3x3(Quaternion)`
constructor): rotation matrix from a quaternion. -/
def Mat3.ofQuat (q : Quat) : Mat3 :=
  let d := q.x * q.x + q.y * q.y + q.z * q.z + q.w * q.w
  let s := 2 / d
  let xs := q.x * s
  let ys := q.y * s
  let zs := q.z * s
  let wx := q.w * xs
  let wy := q.w * ys
  let wz := q.w * zs
  let xx := q.x * xs
  let xy := q.x * ys
  let xz := q.x * zs
  let yy := q.y * ys
  let yz := q.y * zs
  let zz := q.z * zs
  ⟨1 - (yy + zz), xy - wz, xz + wy,
   xy + wz, 1 - (xx + zz), yz - wx,
   xz - wy, yz + wx, 1 - (xx + yy)⟩

/-- `tf2::Matrix3x3::getRotation(q)`: quaternion from a rotation matrix.
The integer index juggling of the `trace ≤ 0` branch (`i`, `j = (i+1)%3`,
`k = (i+2)%3`) is written out case by case. -/
def Mat3.getRotation (M : MathModel) (m : Mat3) : Quat :=
  let trace := m.m00 + m.m11 + m.m22
  if trace > 0 then
    let s := M.sqrt (trace + 1)
    let w := s * 0.5
    let s2 := 0.5 / s
    ⟨(m.m21 - m.m12) * s2, (m.m02 - m.m20) * s2, (m.m10 - m.m01) * s2, w⟩
  else
    if m.m00 < m.m11 then
      if m.m11 < m.m22 then
        -- i = 2, j = 0, k = 1
        let s := M.sqrt (m.m22 - m.m00 - m.m11 + 1)
        let s2 := 0.5 / s
        ⟨(m.m02 + m.m20) * s2, (m.m12 + m.m21) * s2, s * 0.5, (m.m10 - m.m01) * s2⟩
      else
        -- i = 1, j = 2, k = 0
        let s := M.sqrt (m.m11 - m.m22 - m.m00 + 1)
        let s2 := 0.5 / s
        ⟨(m.m01 + m.m10) * s2, s * 0.5, (m.m21 + m.m12) * s2, (m.m02 - m.m20) * s2⟩
    else
      if m.m00 < m.m22 then
        -- i = 2, j = 0, k = 1
        let s := M.sqrt (m.m22 - m.m00 - m.m11 + 1)
        let s2 := 0.5 / s
        ⟨(m.m02 + m.m20) * s2, (m.m12 + m.m21) * s2, s * 0.5, (m.m10 - m.m01) * s2⟩
      else
        -- i = 0, j = 1, k = 2
        let s := M.sqrt (m.m00 - m.m11 - m.m22 + 1)
        let s2 := 0.5 / s
        ⟨s * 0.5, (m.m10 + m.m01) * s2, (m.m20 + m.m02) * s2, (m.m21 - m.m12) * s2⟩

/-- `tf2::Matrix3x3::getEulerYPR(yaw, pitch, roll)`, first solution
(the code always calls `getRPY(..., 1)`).  Returns `(yaw, pitch, roll)`. -/
def Mat3.getEulerYPR (M : MathModel) (m : Mat3) : ℚ × ℚ × ℚ :=
  if |m.m20| ≥ 1 then
    let delta := M.atan2 m.m01 m.m02
    if m.m20 > 0 then
      -- gimbal locked up
      (0, M.pi / 2, M.pi / 2 + delta)
    else
      -- gimbal locked down: roll = -pitch + delta = pi/2 + delta
      (0, -(M.pi / 2), M.pi / 2 + delta)
  else
    let pitch := -(M.asin m.m20)
    let roll := M.atan2 (m.m21 / M.cos pitch) (m.m22 / M.cos pitch)
    let yaw := M.atan2 (m.m10 / M.cos pitch) (m.m00 / M.cos pitch)
    (yaw, pitch, roll)

/-- `tf2::Matrix3x3::getRPY(roll, pitch, yaw)`: reorders `getEulerYPR`.
Returns `(roll, pitch, yaw)`. -/
def Mat3.getRPY (M : MathModel) (m : Mat3) : ℚ × ℚ × ℚ :=
  let e := m.getEulerYPR M
  (e.2.2, e.2.1, e.1)

/-- tf2::Transform: rotation basis plus translation origin. -/
structure Transform where
  basis : Mat3
  origin : Vec3
deriving DecidableEq

/-- `tf2::Transform::operator*`: `(a * b) v = a (b v)`. -/
def Transform.comp (a b : Transform) : Transform :=
  ⟨a.basis.mulMat b.basis, (a.basis.mulVec b.origin).add a.origin⟩

/-- The identity transform (zero origin, identity basis). -/
def Transform.identity : Transform := ⟨Mat3.id, ⟨0, 0, 0⟩⟩

/-- `tf2::Transform::getRotation()`: quaternion of the basis. -/
def Transform.getRotation (M : MathModel) (t : Transform) : Quat :=
  t.basis.getRotation M

/-- `mh_amcl::Particle`: a hypothesized pose with unnormalized weight
(field `prob` in the C++). -/
structure Particle where
  pose : Transform
  prob : ℚ
deriving DecidableEq

/-- Default particle, used only as the out-of-range fallback of list
lookups that are always in range in the modelled runs. -/
def defaultParticle : Particle := ⟨Transform.identity, 0⟩

/-! ### Occupancy grid (external collaborator, nav2_costmap_2d) -/

/-- `nav2_costmap_2d::LETHAL_OBSTACLE`. -/
def LETHAL_OBSTACLE : ℕ := 254

/-- `nav2_costmap_2d::NO_INFORMATION`. -/
def NO_INFORMATION : ℕ := 255

/-- Abstract `nav2_costmap_2d::Costmap2D`, at the interface the filter
uses: `worldToMap` (cell-or-none), `getCost` on a cell, `getResolution`. -/
structure Costmap where
  resolution : ℚ
  worldToMap : ℚ → ℚ → Option (ℕ × ℕ)
  getCost : ℕ → ℕ → ℕ

/-- `ParticlesDistribution::get_cost`: cost of the cell under the
transform's origin, `NO_INFORMATION` when `worldToMap` fails. -/
def get_cost (t : Transform) (cm : Costmap) : ℕ :=
  match cm.worldToMap t.origin.x t.origin.y with
  | some (mx, my) => cm.getCost mx my
  | none => NO_INFORMATION

/-- A costmap never reports a point it cannot map as a lethal obstacle. -/
def noInfoNeverLethal (cm : Costmap) : Prop :=
  ∀ t : Transform, cm.worldToMap t.origin.x t.origin.y = none →
    get_cost t cm ≠ LETHAL_OBSTACLE

/-! ### Sensor model -/

/-- `map2point` of `get_error_distance_to_obstacle`:
`map2laser = map2bf * bf2laser`, `map2point = map2laser * laser2point`. -/
def map2pointOf (map2bf bf2laser laser2point : Transform) : Transform :=
  (map2bf.comp bf2laser).comp laser2point

/-- `unit = laser2point.getOrigin() / laser2point.getOrigin().length()`:
the unit vector from the sensor origin toward the local point (length
via the library square root). -/
def unitOf (M : MathModel) (laser2point : Transform) : Vec3 :=
  laser2point.origin.sdiv (M.sqrt laser2point.origin.length2)

/-- The `while (dist < 3.0 * o)` search loop of
`get_error_distance_to_obstacle`, with an explicit iteration budget
`fuel` (the C++ loop terminates precisely when the resolution is
positive; `get_error_distance_to_obstacle` below supplies a budget
large enough to be inexhaustible in that case).  The C++ composes
`map2point_aux * uvector` where `uvector` carries origin `unit * dist`
(its rotation part is left untouched and never read, so it is taken as
the identity here); only the composed origin reaches `get_cost`. -/
def marchLoop (cm : Costmap) (base : Transform) (unit : Vec3) (o : ℚ) :
    ℕ → ℚ → Option ℚ
  | 0, _ => none
  | fuel + 1, dist =>
    if dist < 3 * o then
      if get_cost (base.comp ⟨Mat3.id, unit.smul dist⟩) cm = LETHAL_OBSTACLE then
        some dist
      else if get_cost (base.comp ⟨Mat3.id, (unit.smul dist).smul (-1)⟩) cm
          = LETHAL_OBSTACLE then
        some dist
      else
        marchLoop cm base unit o fuel (dist + cm.resolution)
    else
      none

/-- Iteration budget for `marchLoop`: when `0 < res` the loop tests at
most `⌈3 o / res⌉ - 1` distances, so `⌈3 o / res⌉` steps are never
exhausted. -/
def marchFuel (res o : ℚ) : ℕ := (Int.ceil (3 * o / res)).toNat

/-- `ParticlesDistribution::get_error_distance_to_obstacle`.  `none`
stands for the C++ `+infinity` return.  The leading `isinf/isnan` guard
on `laser2point` cannot fire over exact rationals and is omitted; the
unused `scan` parameter of the C++ signature is dropped. -/
def get_error_distance_to_obstacle (M : MathModel) (cm : Costmap)
    (map2bf bf2laser laser2point : Transform) (o : ℚ) : Option ℚ :=
  let map2point := map2pointOf map2bf bf2laser laser2point
  let unit := unitOf M laser2point
  if get_cost map2point cm = LETHAL_OBSTACLE then some 0
  else marchLoop cm map2point unit o (marchFuel cm.resolution o) cm.resolution

/-- Modelled from the spec (for the refinement claim on the ray search):
at step distance `d`, is either the positive or the negative offset of
the map point along the unit vector a lethal cell? -/
def lethalAtStep (cm : Costmap) (base : Transform) (unit : Vec3) (d : ℚ) : Bool :=
  decide (get_cost (base.comp ⟨Mat3.id, unit.smul d⟩) cm = LETHAL_OBSTACLE) ||
  decide (get_cost (base.comp ⟨Mat3.id, unit.smul (-d)⟩) cm = LETHAL_OBSTACLE)

/-- Modelled from the spec: the step distances `res, 2·res, ...` that lie
strictly below the bound `3 o` (for `0 < res` these are exactly the
multiples `(k+1)·res < 3 o`). -/
def specSteps (res o : ℚ) : List ℚ :=
  (List.range (Int.ceil (3 * o / res) - 1).toNat).map
    (fun k : ℕ => ((k : ℚ) + 1) * res)

/-- Modelled from the spec (sentence on the sensor-model ray search):
error 0 at a lethal centre cell, otherwise the first step distance at
which a lethal cell is hit in the positive or negative direction, `none`
(infinity) when no step within the bound hits. -/
def errorDistanceSpec (M : MathModel) (cm : Costmap)
    (map2bf bf2laser laser2point : Transform) (o : ℚ) : Option ℚ :=
  let map2point := map2pointOf map2bf bf2laser laser2point
  let unit := unitOf M laser2point
  if get_cost map2point cm = LETHAL_OBSTACLE then some 0
  else (specSteps cm.resolution o).find? (lethalAtStep cm map2point unit)

/-! ### Laser scan and the correction step -/

/-- One entry of `sensor_msgs::LaserScan::ranges`: a `double` that may
be NaN or infinite.  Finite values are exact rationals here. -/
inductive RangeVal where
  | val : ℚ → RangeVal
  | nan : RangeVal
  | inf : RangeVal
deriving DecidableEq

/-- `!(std::isnan(r) || std::isinf(r))`. -/
def RangeVal.isValid : RangeVal → Bool
  | .val _ => true
  | _ => false

/-- Numeric reading of a range entry.  The C++ reads the raw `double`;
the junk value `0` for NaN/Inf entries is never used because every call
site is guarded by `isValid`. -/
def RangeVal.toQ : RangeVal → ℚ
  | .val v => v
  | _ => 0

/-- The parts of `sensor_msgs::LaserScan` the filter reads. -/
structure LaserScan where
  angle_min : ℚ
  angle_increment : ℚ
  ranges : List RangeVal

/-- The code's `inv_sqrt_2pi` constant (its decimal rendering of
`1/√(2π)`), taken verbatim from the source. -/
def inv_sqrt_2pi : ℚ := 0.3989422804014327

/-- `ParticlesDistribution::get_tranform_to_read` (sic): the sensor-local
point of reading `index`, at `(dist·cos angle, dist·sin angle, 0)` with
identity rotation. -/
def get_tranform_to_read (M : MathModel) (scan : LaserScan) (index : ℕ) : Transform :=
  let dist := (scan.ranges.getD index RangeVal.nan).toQ
  let angle := scan.angle_min + (index : ℚ) * scan.angle_increment
  ⟨Mat3.ofQuat ⟨0, 0, 0, 1⟩, ⟨dist * M.cos angle, dist * M.sin angle, 0⟩⟩

/-- The weight update of `correct_once` for a finite error `e`:
`p.prob = max(p.prob + normal_comp_1 * exp(-0.5 * a * a), 0.000001)`
with `a = e / o` and `normal_comp_1 = inv_sqrt_2pi / o`. -/
def correct_weight (M : MathModel) (o w e : ℚ) : ℚ :=
  let normal_comp_1 := inv_sqrt_2pi / o
  let a := e / o
  let normal_comp_2 := M.exp (-0.5 * a * a)
  max (w + normal_comp_1 * normal_comp_2) 0.000001

/-- Body of the inner particle loop of `correct_once`: update one
particle from one reading; an infinite error leaves it untouched. -/
def update_particle (M : MathModel) (cm : Costmap) (bf2laser laser2point : Transform)
    (o : ℚ) (p : Particle) : Particle :=
  match get_error_distance_to_obstacle M cm p.pose bf2laser laser2point o with
  | some e => { p with prob := correct_weight M o p.prob e }
  | none => p

/-- Body of the outer reading loop of `correct_once`: NaN/Inf readings
are skipped (`continue`), a valid reading updates every particle. -/
def scan_step (M : MathModel) (cm : Costmap) (bf2laser : Transform)
    (scan : LaserScan) (ps : List Particle) (j : ℕ) : List Particle :=
  if (scan.ranges.getD j RangeVal.nan).isValid then
    ps.map (update_particle M cm bf2laser (get_tranform_to_read M scan j) (1/20))
  else
    ps

/-- `ParticlesDistribution::correct_once`.  The tf2 buffer lookup of the
laser transform is an external collaborator, modelled by the
`Option Transform` argument: `none` is the `canTransform` failure, on
which the scan is skipped wholesale (the C++ also logs a warning).
`o = 0.05` as in the source. -/
def correct_once (M : MathModel) (cm : Costmap) (scan : LaserScan)
    (tfres : Option Transform) (ps : List Particle) : List Particle :=
  match tfres with
  | none => ps
  | some bf2laser =>
    (List.range scan.ranges.length).foldl (scan_step M cm bf2laser scan) ps

/-! ### Normalization -/

/-- The `for_each` accumulation `sum += p.prob` of `normalize`. -/
def sumProb (ps : List Particle) : ℚ :=
  ps.foldl (fun s p => s + p.prob) 0

/-- `ParticlesDistribution::normalize`: divide every weight by the total
unless the total is exactly zero. -/
def normalize (ps : List Particle) : List Particle :=
  let sum := sumProb ps
  if sum ≠ 0 then ps.map (fun p => { p with prob := p.prob / sum }) else ps

/-! ### Reseed -/

/-- Descending insertion by weight, realising the `std::sort` comparator
`a.prob > b.prob` of `reseed` (a stable descending sort; `std::sort`
guarantees some order consistent with the comparator). -/
def insertDesc (p : Particle) : List Particle → List Particle
  | [] => [p]
  | q :: qs => if p.prob > q.prob then p :: q :: qs else q :: insertDesc p qs

/-- Sort particles by descending weight. -/
def sortDesc : List Particle → List Particle
  | [] => []
  | p :: ps => insertDesc p (sortDesc ps)

/-- `static_cast<int>` on a `double`: truncation toward zero. -/
def truncToInt (q : ℚ) : ℤ := if q < 0 then Int.ceil q else Int.floor q

/-- `std::clamp(v, lo, hi)`. -/
def clampInt (v lo hi : ℤ) : ℤ := if v < lo then lo else if hi < v then hi else v

/-- `int number_losers = particles_.size() * 0.8` (truncating cast). -/
def numLosers (n : ℕ) : ℕ := (Int.floor ((n : ℚ) * 0.8)).toNat

/-- `int number_winners = particles_.size() * 0.03` (truncating cast). -/
def numWinners (n : ℕ) : ℕ := (Int.floor ((n : ℚ) * 0.03)).toNat

/-- The regeneration loop of `reseed`.  Iteration `i` draws, in program
order, the selector sample (`N(0, W)`, giving the clamped — and then
unused — index), then the x, y and yaw jitters, so it consumes the
standard draws `g (4i), g (4i+1), g (4i+2), g (4i+3)`.  The new
particle's weight halves the weight of `new_particles.back()`, its pose
jitters the pose of `particles_[i]` (the i-th highest-weight sorted
particle), with z, roll and pitch carried over. -/
def reseedLoop (M : MathModel) (g : ℕ → ℚ) (sorted : List Particle) (W : ℕ) :
    ℕ → ℕ → List Particle → List Particle
  | _, 0, acc => acc
  | i, fuel + 1, acc =>
    let _index := clampInt (truncToInt ((W : ℚ) * g (4 * i))) 0 (W : ℤ)
    let back := acc.getLastD defaultParticle
    let base := sorted.getD i defaultParticle
    let nx := 0.01 * g (4 * i + 1)
    let ny := 0.01 * g (4 * i + 2)
    let rpy := Mat3.getRPY M (Mat3.ofQuat (base.pose.getRotation M))
    let newyaw := rpy.2.2 + 0.005 * g (4 * i + 3)
    let q := Quat.setRPY M rpy.1 rpy.2.1 newyaw
    let p : Particle :=
      ⟨⟨Mat3.ofQuat q,
        ⟨base.pose.origin.x + nx, base.pose.origin.y + ny, base.pose.origin.z⟩⟩,
       back.prob / 2⟩
    reseedLoop M g sorted W (i + 1) fuel (acc ++ [p])

/-- `ParticlesDistribution::reseed`: normalize, sort descending by
weight, keep the first `N - floor(0.8 N)` particles, regenerate the
remaining `floor(0.8 N)` through `reseedLoop`. -/
def reseed (M : MathModel) (g : ℕ → ℚ) (ps : List Particle) : List Particle :=
  let sorted := sortDesc (normalize ps)
  let number_losers := numLosers sorted.length
  let number_no_losers := sorted.length - number_losers
  let number_winners := numWinners sorted.length
  let new_particles := sorted.take number_no_losers
  reseedLoop M g sorted number_winners 0 number_losers new_particles

/-- Closed form of the particles generated by `reseedLoop` (starting at
rank `i` with `b` the weight of the particle last appended so far):
used to state what the loop produces. -/
def genParticle (M : MathModel) (g : ℕ → ℚ) (sorted : List Particle)
    (i : ℕ) (b : ℚ) : Particle :=
  let base := sorted.getD i defaultParticle
  let nx := 0.01 * g (4 * i + 1)
  let ny := 0.01 * g (4 * i + 2)
  let rpy := Mat3.getRPY M (Mat3.ofQuat (base.pose.getRotation M))
  let newyaw := rpy.2.2 + 0.005 * g (4 * i + 3)
  let q := Quat.setRPY M rpy.1 rpy.2.1 newyaw
  ⟨⟨Mat3.ofQuat q,
    ⟨base.pose.origin.x + nx, base.pose.origin.y + ny, base.pose.origin.z⟩⟩,
   b / 2⟩

/-- The list of particles `reseedLoop` generates: ranks `i, i+1, ...`,
weights halving from `b` at each step. -/
def reseedGenList (M : MathModel) (g : ℕ → ℚ) (sorted : List Particle) :
    ℕ → ℕ → ℚ → List Particle
  | _, 0, _ => []
  | i, fuel + 1, b =>
    genParticle M g sorted i b :: reseedGenList M g sorted (i + 1) fuel (b / 2)

/-! ### Motion model -/

/-- `ParticlesDistribution::add_noise(dm)` with its two standard-normal
draws made explicit (`noise_tra`, `noise_rot` are samples of
`N(0, 0.01)`, so `0.01 * n`).  Translation noise is the movement's x/y
scaled by `noise_tra`; the yaw is the movement's yaw scaled by
`noise_rot`, roll and pitch are the movement's own. -/
def add_noise (M : MathModel) (dm : Transform) (n1 n2 : ℚ) : Transform :=
  let noise_tra := 0.01 * n1
  let noise_rot := 0.01 * n2
  let x := dm.origin.x * noise_tra
  let y := dm.origin.y * noise_tra
  let z : ℚ := 0
  let rpy := Mat3.getRPY M (Mat3.ofQuat (dm.getRotation M))
  let newyaw := rpy.2.2 * noise_rot
  let q := Quat.setRPY M rpy.1 rpy.2.1 newyaw
  ⟨Mat3.ofQuat q, ⟨x, y, z⟩⟩

/-- The particle loop of `predict`, threading the index of the first
unconsumed standard draw (two draws per particle). -/
def predictFrom (M : MathModel) (movement : Transform) (g : ℕ → ℚ) :
    ℕ → List Particle → List Particle
  | _, [] => []
  | i, p :: ps =>
    { p with pose := (p.pose.comp movement).comp (add_noise M movement (g (2 * i)) (g (2 * i + 1))) }
      :: predictFrom M movement g (i + 1) ps

/-- `ParticlesDistribution::predict`:
`particle.pose = particle.pose * movement * add_noise(movement)`. -/
def predict (M : MathModel) (movement : Transform) (g : ℕ → ℚ)
    (ps : List Particle) : List Particle :=
  predictFrom M movement g 0 ps

/-! ### Concrete fixtures (used to instantiate the theorems) -/

/-- A concrete math-library model, enough for the identity computations
appearing in the instantiated theorems. -/
def Mconst : MathModel :=
  ⟨fun _ => 1, fun q => if q = 4 then 2 else 0, fun _ => 0, fun _ => 1,
   fun _ => 0, fun _ _ => 0, 0⟩

/-- A concrete standard-normal draw stream (all draws zero). -/
def gW : ℕ → ℚ := fun _ => 0

/-- A concrete 5-particle set with distinct weights summing to 1. -/
def psW : List Particle :=
  [⟨Transform.identity, 16/31⟩, ⟨Transform.identity, 8/31⟩,
   ⟨Transform.identity, 4/31⟩, ⟨Transform.identity, 2/31⟩,
   ⟨Transform.identity, 1/31⟩]

/-- A concrete costmap whose every world point maps to a lethal cell. -/
def cmLethal : Costmap := ⟨1/20, fun _ _ => some (0, 0), fun _ _ => 254⟩

/-! ### Helper lemmas -/

theorem foldl_add_prob (ps : List Particle) (a : ℚ) :
    ps.foldl (fun s p => s + p.prob) a = a + (ps.map Particle.prob).sum := by
  induction ps generalizing a with
  | nil => simp
  | cons p ps ih => simp [ih, add_assoc]

theorem sumProb_eq (ps : List Particle) :
    sumProb ps = (ps.map Particle.prob).sum := by
  simp [sumProb, foldl_add_prob]

theorem sum_map_div (l : List ℚ) (s : ℚ) :
    (l.map (fun x => x / s)).sum = l.sum / s := by
  induction l with
  | nil => simp
  | cons a l ih => simp [ih, add_div]

theorem sumProb_map_div (ps : List Particle) (s : ℚ) :
    sumProb (ps.map (fun p => { p with prob := p.prob / s })) = sumProb ps / s := by
  rw [sumProb_eq, sumProb_eq, List.map_map, ← sum_map_div (ps.map Particle.prob) s,
    List.map_map]
  rfl

theorem normalize_eq (ps : List Particle) :
    normalize ps = if sumProb ps = 0 then ps
      else ps.map (fun p => { p with prob := p.prob / sumProb ps }) := by
  by_cases h : sumProb ps = 0 <;> simp [normalize, h]

theorem normalize_sum (ps : List Particle) :
    sumProb (normalize ps) = if sumProb ps = 0 then 0 else 1 := by
  by_cases h : sumProb ps = 0
  · simp [normalize_eq, h]
  · simp [normalize_eq, h, sumProb_map_div, div_self h]

theorem map_div_one (ps : List Particle) :
    ps.map (fun p => { p with prob := p.prob / 1 }) = ps := by
  induction ps with
  | nil => rfl
  | cons p ps ih => cases p; simp [ih]

theorem foldl_skip_filter {α β : Type} (f : β → α → β) (p : α → Bool)
    (hf : ∀ b a, p a = false → f b a = b) :
    ∀ (l : List α) (b : β), l.foldl f b = (l.filter p).foldl f b := by
  intro l
  induction l with
  | nil => intro b; rfl
  | cons a l ih =>
    intro b
    by_cases hpa : p a = true
    · simp [List.filter_cons, hpa, ih]
    · have hfa : p a = false := by simpa using hpa
      simp [List.filter_cons, hfa, hf b a hfa, ih]

theorem predictFrom_probs (M : MathModel) (mv : Transform) (g : ℕ → ℚ) :
    ∀ (ps : List Particle) (i : ℕ),
      (predictFrom M mv g i ps).map Particle.prob = ps.map Particle.prob := by
  intro ps
  induction ps with
  | nil => intro i; rfl
  | cons p ps ih => intro i; simp [predictFrom, ih]

theorem predictFrom_length (M : MathModel) (mv : Transform) (g : ℕ → ℚ) :
    ∀ (ps : List Particle) (i : ℕ),
      (predictFrom M mv g i ps).length = ps.length := by
  intro ps
  induction ps with
  | nil => intro i; rfl
  | cons p ps ih => intro i; simp [predictFrom, ih]

/-! ### Claim theorems -/

/-- Claim C3: when the sensor-to-base transform is unavailable at the
scan's timestamp, `correct_once` skips the whole scan: the particle set
(weights and poses) is returned bit-identically; the C++ additionally
only emits a warning. -/
theorem correct_once_skips_scan_without_transform (M : MathModel) (cm : Costmap)
    (scan : LaserScan) (ps : List Particle) :
    correct_once M cm scan none ps = ps := rfl

/-- Claim C6: `normalize` computes the weight sum `S`; if `S = 0` it
leaves every weight unchanged, otherwise it divides every weight by `S`,
after which the weights sum to exactly 1. -/
theorem normalize_spec (ps : List Particle) :
    normalize ps = (if sumProb ps = 0 then ps
      else ps.map (fun p => { p with prob := p.prob / sumProb ps }))
    ∧ sumProb (normalize ps) = (if sumProb ps = 0 then 0 else 1) :=
  ⟨normalize_eq ps, normalize_sum ps⟩

/-- Claim C7: `normalize` is idempotent — applying it twice yields
exactly the weights of applying it once. -/
theorem normalize_idempotent (ps : List Particle) :
    normalize (normalize ps) = normalize ps := by
  by_cases h : sumProb ps = 0
  · have h1 : normalize ps = ps := by simp [normalize_eq, h]
    rw [h1, h1]
  · have hs : sumProb (normalize ps) = 1 := by simp [normalize_sum, h]
    rw [normalize_eq (normalize ps), hs]
    simp [map_div_one]

/-- Claim C9: every NaN or Inf range reading is skipped entirely by the
correction step — folding over all reading indices equals folding over
only the valid-reading indices, so exactly the valid readings affect
particle weights. -/
theorem correct_once_skips_invalid_readings (M : MathModel) (cm : Costmap)
    (scan : LaserScan) (tf : Transform) (ps : List Particle) :
    correct_once M cm scan (some tf) ps =
      ((List.range scan.ranges.length).filter
        (fun j => (scan.ranges.getD j RangeVal.nan).isValid)).foldl
        (scan_step M cm tf scan) ps := by
  exact foldl_skip_filter (scan_step M cm tf scan)
    (fun j => (scan.ranges.getD j RangeVal.nan).isValid)
    (fun b a ha => by
      have ha2 : (scan.ranges.getD a RangeVal.nan).isValid = false := ha
      unfold scan_step
      rw [ha2]
      simp) (List.range scan.ranges.length) ps

/-- Claim C10: `predict` modifies only particle poses — weights and the
particle count are unchanged for every movement. -/
theorem predict_preserves_weights_and_count (M : MathModel) (mv : Transform)
    (g : ℕ → ℚ) (ps : List Particle) :
    (predict M mv g ps).map Particle.prob = ps.map Particle.prob
    ∧ (predict M mv g ps).length = ps.length :=
  ⟨predictFrom_probs M mv g ps 0, predictFrom_length M mv g ps 0⟩

/-- Claim C2: for a valid reading with finite error `e` (at `σ = 0.05`),
the correction adds the likelihood
`(inv_sqrt_2pi / σ) · exp(-0.5 (e/σ)²)` to the particle's weight and
clamps it to the floor `1e-6`, so the weight is strictly positive
afterwards; at `e = 0` the weight grows by exactly the maximal
likelihood `inv_sqrt_2pi / σ` (the code's rendering of `1/(√(2π) σ)`). -/
theorem correct_once_weight_update (M : MathModel) (cm : Costmap)
    (bf2laser laser2point : Transform) (p : Particle) (e : ℚ)
    (he : get_error_distance_to_obstacle M cm p.pose bf2laser laser2point (1/20)
      = some e)
    (hexp : M.exp 0 = 1) (hw : 0 ≤ p.prob) :
    (update_particle M cm bf2laser laser2point (1/20) p).prob
      = correct_weight M (1/20) p.prob e
    ∧ 0 < (update_particle M cm bf2laser laser2point (1/20) p).prob
    ∧ correct_weight M (1/20) p.prob 0 = p.prob + inv_sqrt_2pi / (1/20)
    ∧ p.prob < correct_weight M (1/20) p.prob 0 := by
  have h1 : (update_particle M cm bf2laser laser2point (1/20) p).prob
      = correct_weight M (1/20) p.prob e := by
    unfold update_particle
    rw [he]
  have hc : (0.000001 : ℚ) ≤ inv_sqrt_2pi / (1/20) := by norm_num [inv_sqrt_2pi]
  have hcpos : (0 : ℚ) < inv_sqrt_2pi / (1/20) := by norm_num [inv_sqrt_2pi]
  have hzero : correct_weight M (1/20) p.prob 0 = p.prob + inv_sqrt_2pi / (1/20) := by
    simp only [correct_weight]
    have harg : (-0.5 : ℚ) * (0 / (1/20)) * (0 / (1/20)) = 0 := by norm_num
    rw [harg, hexp, mul_one]
    exact max_eq_left (by linarith)
  refine ⟨h1, ?_, hzero, ?_⟩
  · rw [h1]
    simp only [correct_weight]
    exact lt_of_lt_of_le (by norm_num) (le_max_right _ _)
  · rw [hzero]
    linarith

/-- Claim C2 witness: a lethal centre cell gives error 0; the particle's
weight then strictly increases by the maximal likelihood. -/
theorem correct_once_weight_update_witness :
    get_error_distance_to_obstacle Mconst cmLethal defaultParticle.pose
      Transform.identity Transform.identity (1/20) = some 0
    ∧ Mconst.exp 0 = 1 ∧ 0 ≤ defaultParticle.prob
    ∧ ((update_particle Mconst cmLethal Transform.identity Transform.identity
          (1/20) defaultParticle).prob
        = correct_weight Mconst (1/20) defaultParticle.prob 0
      ∧ 0 < (update_particle Mconst cmLethal Transform.identity Transform.identity
          (1/20) defaultParticle).prob
      ∧ correct_weight Mconst (1/20) defaultParticle.prob 0
        = defaultParticle.prob + inv_sqrt_2pi / (1/20)
      ∧ defaultParticle.prob < correct_weight Mconst (1/20) defaultParticle.prob 0) :=
  ⟨by decide, rfl, by decide,
   correct_once_weight_update Mconst cmLethal Transform.identity Transform.identity
     defaultParticle 0 (by decide) rfl (by decide)⟩

theorem getRotation_id (M : MathModel) (h1 : M.sqrt 4 = 2) :
    Mat3.getRotation M Mat3.id = ⟨0, 0, 0, 1⟩ := by
  simp only [Mat3.getRotation, Mat3.id]
  norm_num [h1]

theorem ofQuat_unit : Mat3.ofQuat ⟨0, 0, 0, 1⟩ = Mat3.id := by
  simp only [Mat3.ofQuat, Mat3.id]
  norm_num

theorem getEulerYPR_id (M : MathModel) (h2 : M.asin 0 = 0) (h3 : M.atan2 0 1 = 0)
    (h5 : M.cos 0 = 1) : Mat3.getEulerYPR M Mat3.id = (0, 0, 0) := by
  simp only [Mat3.getEulerYPR, Mat3.id]
  norm_num [h2, h3, h5]

theorem getRPY_id (M : MathModel) (h2 : M.asin 0 = 0) (h3 : M.atan2 0 1 = 0)
    (h5 : M.cos 0 = 1) : Mat3.getRPY M Mat3.id = (0, 0, 0) := by
  simp [Mat3.getRPY, getEulerYPR_id M h2 h3 h5]

theorem setRPY_zero (M : MathModel) (h4 : M.sin 0 = 0) (h5 : M.cos 0 = 1) :
    Quat.setRPY M 0 0 0 = ⟨0, 0, 0, 1⟩ := by
  simp only [Quat.setRPY]
  norm_num [h4, h5]

theorem comp_identity (t : Transform) : t.comp Transform.identity = t := by
  cases t with
  | mk b o =>
    cases b
    cases o
    simp only [Transform.comp, Transform.identity, Mat3.mulMat, Mat3.mulVec,
      Mat3.id, Vec3.add]
    norm_num

theorem add_noise_identity (M : MathModel) (n1 n2 : ℚ) (h1 : M.sqrt 4 = 2)
    (h2 : M.asin 0 = 0) (h3 : M.atan2 0 1 = 0) (h4 : M.sin 0 = 0)
    (h5 : M.cos 0 = 1) :
    add_noise M Transform.identity n1 n2 = Transform.identity := by
  have hq : Mat3.getRotation M Mat3.id = ⟨0, 0, 0, 1⟩ := getRotation_id M h1
  simp only [add_noise, Transform.getRotation, Transform.identity]
  simp only [hq, ofQuat_unit, getRPY_id M h2 h3 h5]
  norm_num [setRPY_zero M h4 h5, ofQuat_unit]

/-- Claim C8: `predict` with the identity movement leaves every
particle's pose unchanged: the noise transform scales with the
movement's translation and yaw, which are zero, so it is the identity
(given the defining values of the math library at 0). -/
theorem predict_identity_leaves_poses (M : MathModel) (g : ℕ → ℚ)
    (ps : List Particle) (h1 : M.sqrt 4 = 2) (h2 : M.asin 0 = 0)
    (h3 : M.atan2 0 1 = 0) (h4 : M.sin 0 = 0) (h5 : M.cos 0 = 1) :
    predict M Transform.identity g ps = ps := by
  unfold predict
  suffices h : ∀ (l : List Particle) (i : ℕ),
      predictFrom M Transform.identity g i l = l from h ps 0
  intro l
  induction l with
  | nil => intro i; rfl
  | cons p l ih =>
    intro i
    cases p with
    | mk pose prob =>
      simp [predictFrom, ih,
        add_noise_identity M (g (2 * i)) (g (2 * i + 1)) h1 h2 h3 h4 h5,
        comp_identity]

/-- Claim C8 witness: a concrete math model, draw stream and particle
set for which identity prediction is the identity. -/
theorem predict_identity_leaves_poses_witness :
    Mconst.sqrt 4 = 2 ∧ Mconst.asin 0 = 0 ∧ Mconst.atan2 0 1 = 0
    ∧ Mconst.sin 0 = 0 ∧ Mconst.cos 0 = 1
    ∧ predict Mconst Transform.identity gW psW = psW :=
  ⟨by decide, rfl, rfl, rfl, rfl,
   predict_identity_leaves_poses Mconst gW psW (by decide) rfl rfl rfl rfl⟩

theorem normalize_length (ps : List Particle) : (normalize ps).length = ps.length := by
  by_cases h : sumProb ps = 0 <;> simp [normalize_eq, h]

theorem insertDesc_length (p : Particle) (l : List Particle) :
    (insertDesc p l).length = l.length + 1 := by
  induction l with
  | nil => rfl
  | cons q l ih =>
    simp only [insertDesc]
    split <;> simp [ih]

theorem sortDesc_length (ps : List Particle) : (sortDesc ps).length = ps.length := by
  induction ps with
  | nil => rfl
  | cons p ps ih => simp [sortDesc, insertDesc_length, ih]

theorem reseedGenList_length (M : MathModel) (g : ℕ → ℚ) (sorted : List Particle) :
    ∀ (fuel i : ℕ) (b : ℚ), (reseedGenList M g sorted i fuel b).length = fuel := by
  intro fuel
  induction fuel with
  | zero => intro i b; rfl
  | succ fuel ih => intro i b; simp [reseedGenList, ih]

theorem reseedLoop_succ (M : MathModel) (g : ℕ → ℚ) (sorted : List Particle)
    (W i fuel : ℕ) (acc : List Particle) :
    reseedLoop M g sorted W i (fuel + 1) acc
      = reseedLoop M g sorted W (i + 1) fuel
          (acc ++ [genParticle M g sorted i ((acc.getLastD defaultParticle).prob)]) := rfl

theorem reseedGenList_succ (M : MathModel) (g : ℕ → ℚ) (sorted : List Particle)
    (i fuel : ℕ) (b : ℚ) :
    reseedGenList M g sorted i (fuel + 1) b
      = genParticle M g sorted i b :: reseedGenList M g sorted (i + 1) fuel (b / 2) := rfl

theorem genParticle_prob (M : MathModel) (g : ℕ → ℚ) (sorted : List Particle)
    (i : ℕ) (b : ℚ) : (genParticle M g sorted i b).prob = b / 2 := rfl

/-- The regeneration loop appends exactly the closed-form generated list
to its accumulator. -/
theorem reseedLoop_eq (M : MathModel) (g : ℕ → ℚ) (sorted : List Particle) (W : ℕ) :
    ∀ (fuel i : ℕ) (acc : List Particle),
      reseedLoop M g sorted W i fuel acc
        = acc ++ reseedGenList M g sorted i fuel ((acc.getLastD defaultParticle).prob) := by
  intro fuel
  induction fuel with
  | zero => intro i acc; simp [reseedLoop, reseedGenList]
  | succ fuel ih =>
    intro i acc
    rw [reseedLoop_succ, ih,
      List.getLastD_concat, reseedGenList_succ, genParticle_prob]
    simp

/-- `reseed` in closed form: kept prefix of the sorted normalized set,
followed by the generated list seeded with the last kept weight. -/
theorem reseed_eq (M : MathModel) (g : ℕ → ℚ) (ps : List Particle) :
    reseed M g ps
      = (sortDesc (normalize ps)).take (ps.length - numLosers ps.length)
        ++ reseedGenList M g (sortDesc (normalize ps)) 0 (numLosers ps.length)
            ((((sortDesc (normalize ps)).take (ps.length - numLosers ps.length)).getLastD
                defaultParticle).prob) := by
  unfold reseed
  rw [reseedLoop_eq, sortDesc_length, normalize_length]

theorem numLosers_le (n : ℕ) : numLosers n ≤ n := by
  unfold numLosers
  rw [Int.toNat_le]
  calc Int.floor ((n : ℚ) * 0.8) ≤ Int.floor ((n : ℚ)) := by
        apply Int.floor_le_floor
        nlinarith [Nat.cast_nonneg (α := ℚ) n]
    _ = (n : ℤ) := Int.floor_natCast n

theorem take_sorted_length (ps : List Particle) (k : ℕ) (hk : k ≤ ps.length) :
    ((sortDesc (normalize ps)).take k).length = k := by
  rw [List.length_take, sortDesc_length, normalize_length]
  exact min_eq_left hk

/-- Claim C4: `reseed` on a set of `N ≥ 5` particles returns exactly `N`
particles; the first `K = N - floor(0.8 N)` of them are the top-`K`
entries of the descending-weight sort performed by `reseed` (after its
initial `normalize`), kept verbatim, and they are followed by exactly
`floor(0.8 N)` newly generated particles. -/
theorem reseed_size_and_kept_prefix (M : MathModel) (g : ℕ → ℚ) (ps : List Particle)
    (_hN : 5 ≤ ps.length) :
    (reseed M g ps).length = ps.length
    ∧ (reseed M g ps).take (ps.length - numLosers ps.length)
        = (sortDesc (normalize ps)).take (ps.length - numLosers ps.length)
    ∧ ((reseed M g ps).drop (ps.length - numLosers ps.length)).length
        = numLosers ps.length := by
  have hL : numLosers ps.length ≤ ps.length := numLosers_le ps.length
  have hK : ps.length - numLosers ps.length ≤ ps.length := Nat.sub_le _ _
  have hlen := take_sorted_length ps (ps.length - numLosers ps.length) hK
  refine ⟨?_, ?_, ?_⟩
  · rw [reseed_eq, List.length_append, hlen, reseedGenList_length]
    omega
  · rw [reseed_eq, List.take_left' hlen]
  · rw [reseed_eq, List.drop_left' hlen, reseedGenList_length]

/-- Claim C4 witness: the concrete 5-particle set. -/
theorem reseed_size_and_kept_prefix_witness :
    5 ≤ psW.length
    ∧ ((reseed Mconst gW psW).length = psW.length
      ∧ (reseed Mconst gW psW).take (psW.length - numLosers psW.length)
          = (sortDesc (normalize psW)).take (psW.length - numLosers psW.length)
      ∧ ((reseed Mconst gW psW).drop (psW.length - numLosers psW.length)).length
          = numLosers psW.length) :=
  ⟨by decide, reseed_size_and_kept_prefix Mconst gW psW (by decide)⟩

theorem reseedGenList_probs (M : MathModel) (g : ℕ → ℚ) (sorted : List Particle) :
    ∀ (fuel i : ℕ) (b : ℚ),
      (reseedGenList M g sorted i fuel b).map Particle.prob
        = (List.range fuel).map (fun k => b / 2 ^ (k + 1)) := by
  intro fuel
  induction fuel with
  | zero => intro i b; rfl
  | succ fuel ih =>
    intro i b
    rw [List.range_succ_eq_map, reseedGenList_succ]
    simp only [List.map_cons, List.map_map, genParticle_prob, ih]
    refine congrArg₂ _ (by norm_num) ?_
    refine List.map_congr_left (fun k _ => ?_)
    show b / 2 / 2 ^ (k + 1) = b / 2 ^ (k + 1 + 1)
    rw [div_div]
    congr 1
    ring

theorem genParticle_congr (M : MathModel) (sorted : List Particle) (g1 g2 : ℕ → ℚ)
    (i : ℕ) (b : ℚ) (ha : g1 (4 * i + 1) = g2 (4 * i + 1))
    (hb : g1 (4 * i + 2) = g2 (4 * i + 2)) (hc : g1 (4 * i + 3) = g2 (4 * i + 3)) :
    genParticle M g1 sorted i b = genParticle M g2 sorted i b := by
  simp only [genParticle, ha, hb, hc]

theorem reseedGenList_congr (M : MathModel) (sorted : List Particle) (g1 g2 : ℕ → ℚ)
    (ha : ∀ k, g1 (4 * k + 1) = g2 (4 * k + 1))
    (hb : ∀ k, g1 (4 * k + 2) = g2 (4 * k + 2))
    (hc : ∀ k, g1 (4 * k + 3) = g2 (4 * k + 3)) :
    ∀ (fuel i : ℕ) (b : ℚ),
      reseedGenList M g1 sorted i fuel b = reseedGenList M g2 sorted i fuel b := by
  intro fuel
  induction fuel with
  | zero => intro i b; rfl
  | succ fuel ih =>
    intro i b
    rw [reseedGenList_succ, reseedGenList_succ,
      genParticle_congr M sorted g1 g2 i b (ha i) (hb i) (hc i), ih]

/-- Claim C5 (amended): the regenerated particles.  Each replacement `i`
jitters the pose of the i-th sorted particle (x, y and yaw Gaussian
jitter, z, roll and pitch carried over) — this is what `reseedGenList`
and `genParticle` spell out — its weight is half the weight of the
particle appended immediately before it (the last kept survivor for
`i = 0`, thereafter the previous replacement), so the i-th replacement
weighs `w_K / 2^(i+1)`; and the clamped bell-curve index is computed but
never used: the result does not depend on the selector draws. -/
theorem reseed_generated_particles (M : MathModel) (g1 g2 : ℕ → ℚ) (ps : List Particle)
    (hg : (fun k => (g1 (4 * k + 1), g1 (4 * k + 2), g1 (4 * k + 3)))
        = (fun k => (g2 (4 * k + 1), g2 (4 * k + 2), g2 (4 * k + 3)))) :
    (reseed M g1 ps).drop (ps.length - numLosers ps.length)
      = reseedGenList M g1 (sortDesc (normalize ps)) 0 (numLosers ps.length)
          ((((sortDesc (normalize ps)).take (ps.length - numLosers ps.length)).getLastD
              defaultParticle).prob)
    ∧ ((reseed M g1 ps).drop (ps.length - numLosers ps.length)).map Particle.prob
      = (List.range (numLosers ps.length)).map
          (fun k =>
            ((((sortDesc (normalize ps)).take (ps.length - numLosers ps.length)).getLastD
                defaultParticle).prob) / 2 ^ (k + 1))
    ∧ reseed M g1 ps = reseed M g2 ps := by
  have hlen := take_sorted_length ps (ps.length - numLosers ps.length) (Nat.sub_le _ _)
  have h1 : (reseed M g1 ps).drop (ps.length - numLosers ps.length)
      = reseedGenList M g1 (sortDesc (normalize ps)) 0 (numLosers ps.length)
          ((((sortDesc (normalize ps)).take (ps.length - numLosers ps.length)).getLastD
              defaultParticle).prob) := by
    rw [reseed_eq, List.drop_left' hlen]
  have ha : ∀ k, g1 (4 * k + 1) = g2 (4 * k + 1) := fun k =>
    congrArg (fun p => p.1) (congrFun hg k)
  have hb : ∀ k, g1 (4 * k + 2) = g2 (4 * k + 2) := fun k =>
    congrArg (fun p => p.2.1) (congrFun hg k)
  have hc : ∀ k, g1 (4 * k + 3) = g2 (4 * k + 3) := fun k =>
    congrArg (fun p => p.2.2) (congrFun hg k)
  refine ⟨h1, ?_, ?_⟩
  · rw [h1, reseedGenList_probs]
  · rw [reseed_eq, reseed_eq,
      reseedGenList_congr M (sortDesc (normalize ps)) g1 g2 ha hb hc]

/-- Claim C5 witness: instantiation at the concrete fixtures (with the
two draw streams equal). -/
theorem reseed_generated_particles_witness :
    (fun k => (gW (4 * k + 1), gW (4 * k + 2), gW (4 * k + 3)))
      = (fun k => (gW (4 * k + 1), gW (4 * k + 2), gW (4 * k + 3)))
    ∧ ((reseed Mconst gW psW).drop (psW.length - numLosers psW.length)
        = reseedGenList Mconst gW (sortDesc (normalize psW)) 0 (numLosers psW.length)
            ((((sortDesc (normalize psW)).take
                (psW.length - numLosers psW.length)).getLastD defaultParticle).prob)
      ∧ ((reseed Mconst gW psW).drop (psW.length - numLosers psW.length)).map Particle.prob
        = (List.range (numLosers psW.length)).map
            (fun k =>
              ((((sortDesc (normalize psW)).take
                  (psW.length - numLosers psW.length)).getLastD defaultParticle).prob)
                / 2 ^ (k + 1))
      ∧ reseed Mconst gW psW = reseed Mconst gW psW) :=
  ⟨rfl, reseed_generated_particles Mconst gW gW psW rfl⟩

/-- Claim C5 counterexample: on the concrete 5-particle set (weights
16/31 … 1/31, so `K = 1`, `L = 4`), the second replacement particle's
weight is `w_K / 4`, not half of the last appended survivor's weight
`w_K / 2` — `back()` is the previously generated particle from the
second iteration on. -/
theorem reseed_second_generated_weight_not_half_of_survivor :
    ((reseed Mconst gW psW).getD 2 defaultParticle).prob
      ≠ (((sortDesc (normalize psW)).take (psW.length - numLosers psW.length)).getLastD
          defaultParticle).prob / 2 := by
  have hsum : sumProb psW = 1 := by
    simp only [sumProb, psW, List.foldl]
    norm_num
  have hnorm : normalize psW = psW := by
    rw [normalize_eq, hsum]
    norm_num [map_div_one]
  have hsort : sortDesc psW = psW := by
    norm_num [psW, sortDesc, insertDesc]
  have hL : numLosers psW.length = 4 := by
    show (Int.floor ((5 : ℚ) * 0.8)).toNat = 4
    norm_num
    rfl
  have hre := reseed_eq Mconst gW psW
  rw [hnorm, hsort, hL] at hre
  have hlhs : ((psW.take (psW.length - 4)
      ++ reseedGenList Mconst gW psW 0 4
          (((psW.take (psW.length - 4)).getLastD defaultParticle).prob)).getD 2
        defaultParticle).prob = 16 / 31 / 2 / 2 := rfl
  rw [hre, hlhs, hnorm, hsort, hL]
  have hrhs : (((psW.take (psW.length - 4)).getLastD defaultParticle).prob : ℚ)
      = 16 / 31 := rfl
  rw [hrhs]
  norm_num

theorem smul_neg_one (v : Vec3) (d : ℚ) : (v.smul d).smul (-1) = v.smul (-d) := by
  simp only [Vec3.smul, Vec3.mk.injEq]
  refine ⟨by ring, by ring, by ring⟩

theorem cost_neg_step (cm : Costmap) (base : Transform) (unit : Vec3) (d : ℚ) :
    get_cost (base.comp ⟨Mat3.id, (unit.smul d).smul (-1)⟩) cm
      = get_cost (base.comp ⟨Mat3.id, unit.smul (-d)⟩) cm := by
  rw [smul_neg_one]

theorem specSteps_length (res o : ℚ) :
    (specSteps res o).length = (Int.ceil (3 * o / res) - 1).toNat := by
  simp only [specSteps, List.length_map, List.length_range]

theorem specSteps_drop_eq (res o : ℚ) (j : ℕ)
    (h : j < (Int.ceil (3 * o / res) - 1).toNat) :
    (specSteps res o).drop j
      = ((j : ℚ) + 1) * res :: (specSteps res o).drop (j + 1) := by
  have hlen : j < (specSteps res o).length := by
    rw [specSteps_length]
    exact h
  rw [List.drop_eq_getElem_cons hlen]
  congr 1
  simp only [specSteps, List.getElem_map, List.getElem_range]

/-- The C++ search loop, started at step `j` (distance `(j+1)·res`) with
enough remaining fuel, returns exactly the first lethal step distance of
the spec's step list from position `j` on. -/
theorem marchLoop_eq_spec (cm : Costmap) (base : Transform) (unit : Vec3) (o : ℚ)
    (hres : 0 < cm.resolution) :
    ∀ (fuel j : ℕ),
      (Int.ceil (3 * o / cm.resolution) - 1).toNat ≤ j + fuel →
      marchLoop cm base unit o fuel (((j : ℚ) + 1) * cm.resolution)
        = ((specSteps cm.resolution o).drop j).find? (lethalAtStep cm base unit) := by
  intro fuel
  induction fuel with
  | zero =>
    intro j hj
    have hnil : (specSteps cm.resolution o).drop j = [] := by
      apply List.drop_eq_nil_of_le
      rw [specSteps_length]
      omega
    rw [hnil]
    rfl
  | succ fuel ih =>
    intro j hj
    by_cases hjn : j < (Int.ceil (3 * o / cm.resolution) - 1).toNat
    · -- this step is inside the bound
      have hjz : ((j : ℤ) + 1) < Int.ceil (3 * o / cm.resolution) := by
        have := Int.lt_toNat.mp hjn
        omega
      have hdist : ((j : ℚ) + 1) * cm.resolution < 3 * o := by
        have hq : ((j : ℚ) + 1) < 3 * o / cm.resolution := by
          have := Int.lt_ceil.mp hjz
          push_cast at this
          exact this
        exact (lt_div_iff₀ hres).mp hq
      have hdrop := specSteps_drop_eq cm.resolution o j hjn
      by_cases hpos :
          get_cost (base.comp ⟨Mat3.id, unit.smul (((j : ℚ) + 1) * cm.resolution)⟩) cm
            = LETHAL_OBSTACLE
      · have hstep : lethalAtStep cm base unit (((j : ℚ) + 1) * cm.resolution) = true := by
          simp [lethalAtStep, hpos]
        rw [hdrop, List.find?_cons_of_pos _ hstep]
        simp only [marchLoop]
        rw [if_pos hdist, if_pos hpos]
      · by_cases hneg :
            get_cost (base.comp ⟨Mat3.id, unit.smul (-(((j : ℚ) + 1) * cm.resolution))⟩) cm
              = LETHAL_OBSTACLE
        · have hstep : lethalAtStep cm base unit (((j : ℚ) + 1) * cm.resolution) = true := by
            simp [lethalAtStep, hneg]
          rw [hdrop, List.find?_cons_of_pos _ hstep]
          simp only [marchLoop]
          rw [if_pos hdist, if_neg hpos, cost_neg_step, if_pos hneg]
        · have hstep : lethalAtStep cm base unit (((j : ℚ) + 1) * cm.resolution) = false := by
            simp [lethalAtStep, hpos, hneg]
          rw [hdrop, List.find?_cons_of_neg _ (by simp [hstep])]
          simp only [marchLoop]
          rw [if_pos hdist, if_neg hpos, cost_neg_step, if_neg hneg]
          have harith : ((j : ℚ) + 1) * cm.resolution + cm.resolution
              = (((j + 1 : ℕ) : ℚ) + 1) * cm.resolution := by
            push_cast
            ring
          rw [harith]
          exact ih (j + 1) (by omega)
    · -- past the bound: the loop guard fails and the spec list is exhausted
      have hz : Int.ceil (3 * o / cm.resolution) ≤ (j : ℤ) + 1 := by
        have := Int.toNat_le.mp (Nat.le_of_not_lt hjn)
        omega
      have hge : 3 * o ≤ ((j : ℚ) + 1) * cm.resolution := by
        have hq : 3 * o / cm.resolution ≤ ((j : ℚ) + 1) := by
          have := Int.ceil_le.mp hz
          push_cast at this
          exact this
        calc 3 * o = 3 * o / cm.resolution * cm.resolution :=
              (div_mul_cancel₀ _ (ne_of_gt hres)).symm
          _ ≤ ((j : ℚ) + 1) * cm.resolution :=
              mul_le_mul_of_nonneg_right hq (le_of_lt hres)
      have hnil : (specSteps cm.resolution o).drop j = [] := by
        apply List.drop_eq_nil_of_le
        rw [specSteps_length]
        omega
      rw [hnil]
      simp only [marchLoop]
      rw [if_neg (not_lt.mpr hge)]
      rfl

/-- Claim C1: the sensor model's error distance is 0 on a lethal centre
cell, and otherwise is exactly the spec's ray search — the first step
distance `d ∈ {res, 2·res, ...}` strictly below `3 o` at which the
positively or negatively offset map point is lethal, infinity (`none`)
when there is none; and a point the grid cannot map (or any
no-information cell, whose cost 255 differs from the lethal 254) never
counts as lethal. -/
theorem get_error_distance_matches_spec (M : MathModel) (cm : Costmap)
    (map2bf bf2laser laser2point : Transform) (o : ℚ) (hres : 0 < cm.resolution) :
    get_error_distance_to_obstacle M cm map2bf bf2laser laser2point o
      = errorDistanceSpec M cm map2bf bf2laser laser2point o
    ∧ noInfoNeverLethal cm
    ∧ NO_INFORMATION ≠ LETHAL_OBSTACLE := by
  refine ⟨?_, ?_, by decide⟩
  · simp only [get_error_distance_to_obstacle, errorDistanceSpec]
    by_cases hc : get_cost (map2pointOf map2bf bf2laser laser2point) cm = LETHAL_OBSTACLE
    · rw [if_pos hc, if_pos hc]
    · rw [if_neg hc, if_neg hc]
      have hfuel : (Int.ceil (3 * o / cm.resolution) - 1).toNat
          ≤ 0 + marchFuel cm.resolution o := by
        unfold marchFuel
        have := Int.toNat_le_toNat
          (show Int.ceil (3 * o / cm.resolution) - 1 ≤ Int.ceil (3 * o / cm.resolution) by omega)
        omega
      have h0 := marchLoop_eq_spec cm (map2pointOf map2bf bf2laser laser2point)
        (unitOf M laser2point) o hres (marchFuel cm.resolution o) 0 hfuel
      rw [show (((0 : ℕ) : ℚ) + 1) * cm.resolution = cm.resolution by norm_num,
        List.drop_zero] at h0
      exact h0
  · intro t ht
    simp [get_cost, ht]
    decide

/-- Claim C1 witness: the all-lethal costmap with resolution 1/20 at
`σ = 0.05`. -/
theorem get_error_distance_matches_spec_witness :
    0 < cmLethal.resolution
    ∧ (get_error_distance_to_obstacle Mconst cmLethal Transform.identity
          Transform.identity Transform.identity (1/20)
        = errorDistanceSpec Mconst cmLethal Transform.identity Transform.identity
            Transform.identity (1/20)
      ∧ noInfoNeverLethal cmLethal
      ∧ NO_INFORMATION ≠ LETHAL_OBSTACLE) :=
  ⟨by norm_num [cmLethal],
   get_error_distance_matches_spec Mconst cmLethal Transform.identity
     Transform.identity Transform.identity (1/20) (by norm_num [cmLethal])⟩

end MhAmcl
